import Mathlib

/-!
# Verification of privex-coinhandlers core behaviour

A shallow embedding, in Lean 4, of the handler registry, settings
resolution, transaction normalisation, key-store and send logic of the
`privex.coin_handlers` Python package, together with theorems settling the
behavioural claims about it.

Conventions used throughout:

* Python dictionaries become insertion-ordered association lists
  (`List (String × _)`); lookup returns the first binding.
* Python values flowing through dynamically-typed setting slots become the
  `Val` inductive below.
* Python `Decimal` values become `ℚ` (`Decimal` is exact decimal
  arithmetic; every value the code manipulates is rational).
* Functions that can raise return `Except PyErr _`; a caught exception is
  an `.error` consumed by the caller, mirroring each `try/except`.
* `str.upper()` / `str.lower()` are modelled by `pyUpper` / `pyLower`
  below, which implement the ASCII case mapping (all symbols and setting
  keys the package manipulates are ASCII).
-/

namespace CoinHandlers

/-- A dynamically typed Python value stored in settings maps and on
`Coin` setting slots. -/
inductive Val where
  | none : Val
  | str : String → Val
  | int : ℤ → Val
  | bool : Bool → Val
  | dict : List (String × Val) → Val

/-- Exception kinds that the embedded code can raise. -/
inductive PyErr where
  | keyError : PyErr
  | indexError : PyErr
  | typeError : PyErr
  deriving DecidableEq, Repr

/-- First-match association-list lookup: the semantics of `d[k]` /
`d.get(k)` on a Python `dict` (keys are unique in a real `dict`; lookup
returns the first binding here, which coincides on unique keys). -/
def alookup {α : Type} : List (String × α) → String → Option α
  | [], _ => Option.none
  | (k, v) :: rest, key => if k = key then some v else alookup rest key

/-- ASCII upper-casing of one character: the effect of Python's
`str.upper()` on ASCII input. -/
def pyCharUpper (c : Char) : Char :=
  if 97 ≤ c.toNat ∧ c.toNat ≤ 122 then Char.ofNat (c.toNat - 32) else c

/-- ASCII lower-casing of one character: the effect of Python's
`str.lower()` on ASCII input. -/
def pyCharLower (c : Char) : Char :=
  if 65 ≤ c.toNat ∧ c.toNat ≤ 90 then Char.ofNat (c.toNat + 32) else c

/-- Python `str.upper()` (ASCII fragment). -/
def pyUpper (s : String) : String := String.mk (s.data.map pyCharUpper)

/-- Python `str.lower()` (ASCII fragment). -/
def pyLower (s : String) : String := String.mk (s.data.map pyCharLower)

theorem char_ofNat_toNat (n : Nat) (h : n.isValidChar) : (Char.ofNat n).toNat = n := by
  unfold Char.ofNat
  rw [dif_pos h]
  rfl

theorem pyCharUpper_idem (c : Char) : pyCharUpper (pyCharUpper c) = pyCharUpper c := by
  unfold pyCharUpper
  by_cases h : 97 ≤ c.toNat ∧ c.toNat ≤ 122
  · rw [if_pos h]
    have hv : (c.toNat - 32).isValidChar := by
      unfold Nat.isValidChar
      left
      omega
    rw [char_ofNat_toNat (c.toNat - 32) hv]
    have hns : ¬ (97 ≤ c.toNat - 32 ∧ c.toNat - 32 ≤ 122) := by omega
    rw [if_neg hns]
  · rw [if_neg h, if_neg h]

theorem pyUpper_idem (s : String) : pyUpper (pyUpper s) = pyUpper s := by
  unfold pyUpper
  apply congrArg
  rw [List.map_map]
  exact List.map_congr_left (fun a _ => pyCharUpper_idem a)

/-! ## Data model: `Coin` (privex/coin_handlers/base/objects.py) -/

/-- The `Coin` attrs class.  `symbol`, `symbol_id`, `display_name` and
`setting_json` are declared `str`-typed in the source and kept as `String`;
the remaining slots are free-form and kept as `Val`. -/
structure Coin where
  symbol : String
  symbol_id : String
  coin_type : Val
  our_account : Val
  can_issue : Val
  display_name : String
  setting_host : Val
  setting_port : Val
  setting_user : Val
  setting_pass : Val
  setting_json : String

/-- The `Coin(...)` constructor.  Optional arguments model the attrs
defaults: `symbol_id` and `display_name` default to `self.symbol`
(the `@symbol_id.default` / `@display_name.default` factories),
`coin_type`/`our_account` default to `None`, `can_issue` to `False`, the
four connection slots to `None` and `setting_json` to the two-character
string `"\x7b\x7d"` (an empty JSON object). -/
def mkCoin (symbol : String) (symbol_id : Option String) (coin_type : Option Val)
    (our_account : Option Val) (can_issue : Option Val) (display_name : Option String)
    (setting_host : Option Val) (setting_port : Option Val) (setting_user : Option Val)
    (setting_pass : Option Val) (setting_json : Option String) : Coin where
  symbol := symbol
  symbol_id := symbol_id.getD symbol
  coin_type := coin_type.getD .none
  our_account := our_account.getD .none
  can_issue := can_issue.getD (.bool false)
  display_name := display_name.getD symbol
  setting_host := setting_host.getD .none
  setting_port := setting_port.getD .none
  setting_user := setting_user.getD .none
  setting_pass := setting_pass.getD .none
  setting_json := setting_json.getD "\x7b\x7d"

/-- A JSON decoder for `json.loads`: the standard-library decoder is an
external collaborator, so it enters the model as a function from the raw
string to either a decoded JSON object (a string-keyed map) or a decode
failure.  (JSON payloads used by the handlers are objects.) -/
abbrev JsonDecoder := String → Except Unit (List (String × Val))

/-- The `Coin.settings` property: the four typed connection slots plus the
decoded `setting_json` blob under the key `"json"`.  The `try/except`
around `json.loads` turns any decode failure into an empty map, so the
property is total. -/
def coinSettingsDict (dec : JsonDecoder) (c : Coin) : List (String × Val) :=
  let j : List (String × Val) :=
    match dec c.setting_json with
    | .ok j => j
    | .error _ => []
  [("host", c.setting_host), ("port", c.setting_port), ("user", c.setting_user),
   ("password", c.setting_pass), ("json", .dict j)]

/-! ## Settings resolver (privex/coin_handlers/base/BaseHandler.py) -/

/-- An object passed to `BaseHandler.find_obj_key`: either a plain `dict`
or a `Coin` instance.  (These are the shapes that reach it from
`get_setting`: `self.coin` and `self.coins.get(symbol, \x7b\x7d)`.) -/
inductive PyObj where
  | dict : List (String × Val) → PyObj
  | coin : Coin → PyObj

/-- `getattr` on a `Coin`: the eleven attrs fields.  (Class-level members
such as the `settings` property or `get` method are callables/derived
views outside the modelled value domain.) -/
def coinGetattr (c : Coin) (k : String) : Option Val :=
  match k with
  | "symbol" => some (.str c.symbol)
  | "symbol_id" => some (.str c.symbol_id)
  | "coin_type" => some c.coin_type
  | "our_account" => some c.our_account
  | "can_issue" => some c.can_issue
  | "display_name" => some (.str c.display_name)
  | "setting_host" => some c.setting_host
  | "setting_port" => some c.setting_port
  | "setting_user" => some c.setting_user
  | "setting_pass" => some c.setting_pass
  | "setting_json" => some (.str c.setting_json)
  | _ => Option.none

/-- `find_obj_key` specialised to a plain `dict` argument: the three
`hasattr` probes find no data attributes on a `dict`, then the item
probes try `key`, `key.upper()`, `key.lower()` in the source's order,
and the final line raises `KeyError`. -/
def findDictKey (entries : List (String × Val)) (key : String) : Except PyErr Val :=
  match alookup entries key with
  | some v => .ok v
  | Option.none =>
    match alookup entries (pyUpper key) with
    | some v => .ok v
    | Option.none =>
      match alookup entries (pyLower key) with
      | some v => .ok v
      | Option.none => .error .keyError

/-- `BaseHandler.find_obj_key(key, obj)`.  For a `Coin`: the attribute
probes try `key`, `key.lower()`, `key.upper()`; the item probes never hit
(`key in coin` iterates `(k, v)` pairs, and a string never equals a
pair); then the code recurses into `obj.settings` and, on `KeyError`,
into `obj.settings['json']`, whose `KeyError` propagates to the caller. -/
def findObjKey (dec : JsonDecoder) (key : String) (obj : PyObj) : Except PyErr Val :=
  match obj with
  | .dict entries => findDictKey entries key
  | .coin c =>
    match coinGetattr c key with
    | some v => .ok v
    | Option.none =>
      match coinGetattr c (pyLower key) with
      | some v => .ok v
      | Option.none =>
        match coinGetattr c (pyUpper key) with
        | some v => .ok v
        | Option.none =>
          match findDictKey (coinSettingsDict dec c) key with
          | .ok v => .ok v
          | .error _ =>
            match alookup (coinSettingsDict dec c) "json" with
            | some (.dict j) => findDictKey j key
            | _ => .error .keyError

/-- The handler state `get_setting` reads: the `settings` dict passed to
the constructor, plus the optional `self.coin` (managers) and
`self.coins` symbol map (loaders) probed via `hasattr`. -/
structure Handler where
  allsettings : List (String × List (String × Val))
  coin : Option PyObj
  coins : Option (List (String × PyObj))

/-- `BaseHandler.get_setting(symbol, key, default)`: environment override,
then the constructor settings dict, then `self.coin`, then
`self.coins.get(symbol, \x7b\x7d)`, finally the default.  `envv` models
`os.getenv`. -/
def getSetting (envv : String → Option String) (dec : JsonDecoder) (h : Handler)
    (symbol key : String) (dflt : Val) : Val :=
  match envv ("COIN_" ++ pyUpper symbol ++ "_" ++ pyUpper key) with
  | some v => .str v
  | Option.none =>
    let s := (alookup h.allsettings (pyUpper symbol)).getD []
    match alookup s key with
    | some v => v
    | Option.none =>
      let fromCoin : Option Val :=
        match h.coin with
        | some c => (findObjKey dec key c).toOption
        | Option.none => Option.none
      match fromCoin with
      | some v => v
      | Option.none =>
        match h.coins with
        | some cs =>
          match (findObjKey dec key ((alookup cs symbol).getD (.dict []))).toOption with
          | some v => v
          | Option.none => dflt
        | Option.none => dflt

/-- The layered, first-match-wins reading of setting resolution, written
directly from the specified precedence order: environment override, then
the handler's settings map entry, then the probe of `self.coin`, then the
probe of `self.coins[symbol]`, else the supplied default. -/
def resolveLayers (envv : String → Option String) (dec : JsonDecoder) (h : Handler)
    (symbol key : String) (dflt : Val) : Val :=
  (((envv ("COIN_" ++ pyUpper symbol ++ "_" ++ pyUpper key)).map Val.str) <|>
    alookup ((alookup h.allsettings (pyUpper symbol)).getD []) key <|>
    (h.coin.bind fun c => (findObjKey dec key c).toOption) <|>
    (h.coins.bind fun cs =>
      (findObjKey dec key ((alookup cs symbol).getD (.dict []))).toOption)).getD dflt

/-! ## KeyStore (privex/coin_handlers/KeyStore.py) -/

/-- A stored signing credential.  `network` and `private_key` are the
required constructor arguments; the rest default to `None` / `'0'` /
`False`.  `id` is whatever `kwargs.get('id')` produced. -/
structure KeyPair where
  network : String
  private_key : String
  public_key : Option String
  account : Option String
  key_type : Option String
  balance : ℚ
  used : Bool
  id : Option ℤ
  deriving DecidableEq, Repr

/-- The keyword arguments accepted by `MemoryKeyStore.set` when creating a
new pair (everything `KeyPair.__init__` takes except `id`, which `set`
supplies itself). -/
structure KPArgs where
  network : String
  private_key : String
  public_key : Option String
  account : Option String
  key_type : Option String
  balance : Option ℚ
  used : Option Bool
  deriving DecidableEq, Repr

/-- `KeyPair(**kwargs, id=...)`. -/
def mkKeyPair (a : KPArgs) (id : Option ℤ) : KeyPair where
  network := a.network
  private_key := a.private_key
  public_key := a.public_key
  account := a.account
  key_type := a.key_type
  balance := a.balance.getD 0
  used := a.used.getD false
  id := id

/-- The optional filters of `MemoryKeyStore.get`; a `none` field is an
unsupplied (Python `None`) filter. -/
structure GetFilters where
  network : Option String
  private_key : Option String
  public_key : Option String
  account : Option String
  key_type : Option String
  key_type__in : Option (List String)
  used : Option Bool
  id : Option ℤ
  deriving DecidableEq, Repr

/-- An entirely unsupplied filter set. -/
def noFilters : GetFilters :=
  ⟨Option.none, Option.none, Option.none, Option.none, Option.none,
   Option.none, Option.none, Option.none⟩

/-- The per-element rejection test of `MemoryKeyStore.get`, with the
checks in source order.  `i` is the `enumerate` position of the element —
note the `id` filter compares against this 0-based position, not against
the pair's `id` attribute. -/
def kpSkip (f : GetFilters) (i : ℤ) (s : KeyPair) : Bool :=
  (match f.network with | some v => s.network ≠ v | Option.none => false) ||
  (match f.private_key with | some v => s.private_key ≠ v | Option.none => false) ||
  (match f.public_key with | some v => s.public_key ≠ some v | Option.none => false) ||
  (match f.account with | some v => s.account ≠ some v | Option.none => false) ||
  (match f.key_type with | some v => s.key_type ≠ some v | Option.none => false) ||
  (match f.used with | some v => s.used ≠ v | Option.none => false) ||
  (match f.key_type__in with
   | some l => match s.key_type with
     | some t => ¬ (t ∈ l)
     | Option.none => true
   | Option.none => false) ||
  (match f.id with | some z => i ≠ z | Option.none => false)

/-- The scan inside `MemoryKeyStore.get`, carrying the enumerate index. -/
def msGetAux (f : GetFilters) : ℤ → List KeyPair → Option KeyPair
  | _, [] => Option.none
  | i, s :: rest => if kpSkip f i s then msGetAux f (i + 1) rest else some s

/-- `MemoryKeyStore.get(...)`: first stored pair passing every supplied
filter, else `None`. -/
def msGet (store : List KeyPair) (f : GetFilters) : Option KeyPair :=
  msGetAux f 0 store

/-- `MemoryKeyStore.set(...)` without an `id` keyword: build a `KeyPair`
with `id = len(self.store) + 1` and append it, returning the new store
and the pair. -/
def msSetNew (store : List KeyPair) (a : KPArgs) : List KeyPair × KeyPair :=
  let s := mkKeyPair a (some ((store.length : ℤ) + 1))
  (store ++ [s], s)

/-! ## Monero transaction normalisation (privex/coin_handlers/Monero/MoneroLoader.py) -/

/-- The fields of a backend `MoneroTransfer` record consulted by
`MoneroLoader._clean_tx`.  `confirmations` and
`suggested_confirmations_threshold` appear through `int(...)`;
`decimal_amount` is the backend's decimal view of the atomic amount;
`timestamp` is the epoch timestamp fed to `utcfromtimestamp`. -/
structure MoneroTransfer where
  txid : String
  type : String
  decimal_amount : ℚ
  address : String
  confirmations : ℤ
  suggested_confirmations_threshold : ℤ
  timestamp : ℤ
  deriving DecidableEq, Repr

/-- The `Deposit`-shaping dict `_clean_tx` returns (timestamps stay as the
epoch value that `utcfromtimestamp`/`pytz.utc.localize` wrap). -/
structure DepositD where
  txid : String
  coin : String
  vout : ℤ
  tx_timestamp : ℤ
  address : String
  amount : ℚ
  deriving DecidableEq, Repr

/-- `self.settings[symbol].get('confirms_needed', 1)` given the symbol's
merged settings dict: the stored value when present (a type error if it
is not an integer, since it is then compared with `<` against an `int`),
else the default `1`. -/
def needConfs (sdict : List (String × Val)) : Except PyErr ℤ :=
  match alookup sdict "confirms_needed" with
  | some (.int n) => .ok n
  | some _ => .error .typeError
  | Option.none => .ok 1

/-- `empty(address)` for the optional address filter argument: `None` and
the empty string count as empty. -/
def pyEmptyStr (o : Option String) : Bool :=
  match o with
  | Option.none => true
  | some s => s = ""

/-- `MoneroLoader._clean_tx(tx, symbol, address)`.  `settings` is the
merged per-symbol settings map (`self.settings`, built by the settings
mixin) and `coins` is the loader's symbol → `Coin` map (`self.coins`);
missing entries raise `KeyError` exactly where the source indexes them.
Returns `ok none` for a routine non-match ("not applicable"). -/
def cleanTx (settings : List (String × List (String × Val))) (coins : List (String × Coin))
    (symbol : String) (tx : MoneroTransfer) (address : Option String) :
    Except PyErr (Option DepositD) :=
  match alookup settings symbol with
  | Option.none => .error .keyError
  | some sdict =>
    match needConfs sdict with
    | .error e => .error e
    | .ok nc =>
      if tx.type ≠ "in" then .ok Option.none
      else if ¬ pyEmptyStr address ∧ tx.address ≠ address.getD "" then .ok Option.none
      else
        -- fall-through target of the confirmation block: build the Deposit dict
        let emit : Except PyErr (Option DepositD) :=
          match alookup coins symbol with
          | Option.none => .error .keyError
          | some c =>
            .ok (some {
              txid := tx.txid
              coin := c.symbol
              vout := 0
              tx_timestamp := tx.timestamp
              address := tx.address
              amount := tx.decimal_amount })
        if tx.confirmations < nc then
          if tx.confirmations < tx.suggested_confirmations_threshold then .ok Option.none
          else emit
        else emit

/-! ## Sending (privex/coin_handlers/Golos/GolosManager.py and
privex/coin_handlers/Monero/MoneroManager.py) -/

/-- `dec_round(amount, dp, rounding=ROUND_DOWN)`: quantise to `dp` decimal
places rounding towards zero (`Decimal`'s `ROUND_DOWN`). -/
def decRoundDown (q : ℚ) (dp : ℕ) : ℚ :=
  let scaled := q * (10 : ℚ) ^ dp
  (((if scaled < 0 then ⌈scaled⌉ else ⌊scaled⌋ : ℤ) : ℚ)) / (10 : ℚ) ^ dp

/-- Failure kinds of `GolosManager.send`. -/
inductive GolosErr where
  | attributeError : GolosErr
  | accountNotFound : GolosErr
  | arithmeticError : GolosErr
  | notEnoughBalance : GolosErr
  | authorityMissing : GolosErr
  deriving DecidableEq, Repr

/-- One invocation of the backend broadcast `rpc.transfer(...)` with the
arguments the source passes. -/
structure GolosTransferCall where
  dest : String
  amount : ℚ
  from_account : String
  memo : String
  asset : String
  wif : String
  deriving DecidableEq, Repr

/-- The result dict `GolosManager.send` returns. -/
structure GolosSendRes where
  txid : String
  coin : String
  amount : ℚ
  fee : ℚ
  from_account : String
  send_type : String
  deriving DecidableEq, Repr

/-- The collaborators `GolosManager.send` consults.  `ourAccount` is
`self.coin.our_account` (`None`/`''` collapse to `none`, matching
`empty`); `validAccounts` backs `address_valid` (`get_accounts`);
`precision` is the backend asset precision; `unitBound` is the exact
rational value of `Decimal(pow(10, -precision))` — `pow` produces a
binary float, so the bound is the float nearest `10 ** -precision`, a
positive rational; `balances` backs `self.balance`; `keystore` is the
global key store searched by `get_priv`; `transferTxid` is the id the
backend broadcast returns. -/
structure GolosEnv where
  ourAccount : Option String
  validAccounts : List String
  precision : ℕ
  unitBound : ℚ
  balances : String → ℚ
  keystore : List KeyPair
  transferTxid : String

/-- The outcome of a `send`: the returned-or-raised value, and the list of
backend broadcast calls that were made along the way. -/
structure GolosSendOutcome where
  result : Except GolosErr GolosSendRes
  broadcasts : List GolosTransferCall

/-- `GolosManager.send(amount, address, from_address, memo)`.  `symbol` is
`self.symbol`.  Mirrors the source order: resolve the source account,
validate destination then source, round down to precision, reject
below-`unitBound` amounts, check the balance, fetch the `active` key from
the global key store, then broadcast. -/
def golosSend (env : GolosEnv) (symbol : String) (amount : ℚ) (address : String)
    (fromAddress : Option String) (memo : Option String) : GolosSendOutcome :=
  let fromAddr : Option String :=
    if pyEmptyStr fromAddress then env.ourAccount else fromAddress
  match fromAddr with
  | Option.none => ⟨.error .attributeError, []⟩
  | some fa =>
    if ¬ (address ∈ env.validAccounts) then ⟨.error .accountNotFound, []⟩
    else if ¬ (fa ∈ env.validAccounts) then ⟨.error .accountNotFound, []⟩
    else
      let m := (memo.filter (fun s => ¬ (s = ""))).getD ""
      let prec := env.precision
      let amt := decRoundDown amount prec
      if amt < env.unitBound then ⟨.error .arithmeticError, []⟩
      else if env.balances fa < amt then ⟨.error .notEnoughBalance, []⟩
      else
        match msGet env.keystore
            ({ noFilters with
               network := some "golos", account := some fa,
               key_type__in := some ["active"] }) with
        | Option.none => ⟨.error .authorityMissing, []⟩
        | some kp =>
          let call : GolosTransferCall :=
            { dest := address, amount := amt, from_account := fa, memo := m,
              asset := pyUpper symbol, wif := kp.private_key }
          ⟨.ok { txid := env.transferTxid, coin := symbol, amount := amt, fee := 0,
                 from_account := fa, send_type := "send" }, [call]⟩

/-- Failure kinds of `MoneroManager.send`, after its `RPCException`
translation. -/
inductive MoneroErr where
  | accountNotFound : MoneroErr
  | notEnoughBalance : MoneroErr
  | rpcError : MoneroErr
  deriving DecidableEq, Repr

/-- Failure kinds the backend `simple_transfer` can raise. -/
inductive RpcFail where
  | wrongAddress : RpcFail
  | notEnoughMoney : RpcFail
  | other : RpcFail
  deriving DecidableEq, Repr

/-- What the backend `simple_transfer` returns on success (`amount` and
`fee` already through `atomic_to_decimal`). -/
structure MoneroTransferRes where
  tx_hash : String
  amount : ℚ
  fee : ℚ
  deriving DecidableEq, Repr

/-- One invocation of the backend `rpc.simple_transfer(...)`. -/
structure MoneroTransferCall where
  amount : ℚ
  address : String
  account_index : ℤ
  deriving DecidableEq, Repr

/-- The result dict `MoneroManager.send` returns. -/
structure MoneroSendRes where
  txid : String
  amount : ℚ
  fee : ℚ
  tx_key : Option String
  tx_blob : Option String
  tx_metadata : Option String
  coin : String
  send_type : String
  from_account : ℤ
  deriving DecidableEq, Repr

/-- The collaborators `MoneroManager.send` consults: `validate_address`
and the `simple_transfer` broadcast. -/
structure MoneroEnv where
  validAddresses : List String
  transfer : ℚ → String → ℤ → Except RpcFail MoneroTransferRes

/-- Outcome of `MoneroManager.send`: result plus backend broadcast calls
made. -/
structure MoneroSendOutcome where
  result : Except MoneroErr MoneroSendRes
  broadcasts : List MoneroTransferCall

/-- `MoneroManager.send(amount, address, from_address)`.  `symbol` is
`self.symbol`.  The source validates the address and then hands `amount`
straight to `simple_transfer` — there is no rounding step and no
precision check. -/
def moneroSend (env : MoneroEnv) (symbol : String) (amount : ℚ) (address : String)
    (fromAddress : Option ℤ) : MoneroSendOutcome :=
  let fromAcct : ℤ := fromAddress.getD 0
  if ¬ (address ∈ env.validAddresses) then ⟨.error .accountNotFound, []⟩
  else
    let call : MoneroTransferCall :=
      { amount := amount, address := address, account_index := fromAcct }
    match env.transfer amount address fromAcct with
    | .error .wrongAddress => ⟨.error .accountNotFound, [call]⟩
    | .error .notEnoughMoney => ⟨.error .notEnoughBalance, [call]⟩
    | .error .other => ⟨.error .rpcError, [call]⟩
    | .ok snd =>
      ⟨.ok { txid := snd.tx_hash, amount := snd.amount, fee := snd.fee,
             tx_key := Option.none, tx_blob := Option.none, tx_metadata := Option.none,
             coin := symbol, send_type := "send", from_account := fromAcct }, [call]⟩

/-! ## Registry configuration (privex/coin_handlers/__init__.py) -/

/-- One `COIN_HANDLERS` entry: the `enabled` flag and the handler's coin
list.  (The `kwargs` dict is forwarded verbatim to constructors and plays
no role in the operations modelled here.) -/
structure HandlerConf where
  enabled : Bool
  coins : List Coin

/-- The `COIN_HANDLERS` catalog and the `COIN_MAP` symbol → `Coin`
catalog. -/
abbrev Catalog := List (String × HandlerConf)
abbrev CoinMap := List (String × Coin)

/-- Registry failure kinds. -/
inductive RegErr where
  | tokenNotFound : RegErr
  | handlerNotFound : RegErr
  deriving DecidableEq, Repr

/-- `handler_has_coin(handler, symbol)`: true when some coin in the
handler's list matches `symbol` up to `upper()` on both sides.  A missing
handler entry behaves as an empty coin list (`_handler` auto-creates
`dict(enabled=True, coins=[])`; the insertion side effect does not change
any observable modelled here). -/
def handlerHasCoin (cat : Catalog) (handler symbol : String) : Bool :=
  let conf := (alookup cat handler).getD ⟨true, []⟩
  conf.coins.any (fun c => pyUpper c.symbol = pyUpper symbol)

/-- Append `c` to `handler`'s coin list, creating the entry
(`dict(enabled=True, coins=[])`) when the handler is unknown. -/
def catAppendCoin (cat : Catalog) (handler : String) (c : Coin) : Catalog :=
  match alookup cat handler with
  | Option.none => cat ++ [(handler, ⟨true, [c]⟩)]
  | some _ =>
    cat.map (fun kv => if kv.1 = handler then (kv.1, ⟨kv.2.enabled, kv.2.coins ++ [c]⟩) else kv)

/-- The shared tail of `add_handler_coin` once a `Coin` value is in hand:
no-op (returning `False`) when the handler already has the symbol, else
append to the handler's list, register the coin in `COIN_MAP` when its
symbol is new there, and return `True`. -/
def addCoinProceed (cat : Catalog) (cmap : CoinMap) (c : Coin) (handler : String) :
    Catalog × CoinMap × Bool :=
  if handlerHasCoin cat handler c.symbol then (cat, cmap, false)
  else
    let cat' := catAppendCoin cat handler c
    let cmap' := if (alookup cmap c.symbol).isSome then cmap else cmap ++ [(c.symbol, c)]
    (cat', cmap', true)

/-- `add_handler_coin(handler, coin)`: a bare string symbol is upper-cased
and resolved through `COIN_MAP`, raising `TokenNotFound` when unknown; a
`Coin` value is used as-is. -/
def addHandlerCoin (cat : Catalog) (cmap : CoinMap) (handler : String)
    (coin : Coin ⊕ String) : Except RegErr (Catalog × CoinMap × Bool) :=
  match coin with
  | .inl c => .ok (addCoinProceed cat cmap c handler)
  | .inr s =>
    let s' := pyUpper s
    match alookup cmap s' with
    | Option.none => .error .tokenNotFound
    | some c => .ok (addCoinProceed cat cmap c handler)

/-- Python's right-biased dict merge `\x7b**a, **b\x7d`: keys of `a` in
order with values overridden by `b`, then the keys of `b` not in `a`, in
`b`'s order. -/
def dictMerge (a b : List (String × Val)) : List (String × Val) :=
  (a.map (fun kv => (kv.1, (alookup b kv.1).getD kv.2))) ++
    b.filter (fun kv => (alookup a kv.1).isNone)

/-- `d[k] = v` on an insertion-ordered dict: overwrite in place when the
key exists, else append. -/
def dictSet {α : Type} (d : List (String × α)) (k : String) (v : α) : List (String × α) :=
  match alookup d k with
  | Option.none => d ++ [(k, v)]
  | some _ => d.map (fun kv => if kv.1 = k then (kv.1, v) else kv)

/-- `setattr(coin, k, v)` for the keys `configure_coin` may touch: the
eleven attrs fields (`hasattr` is true for them).  The four `str`-typed
slots only accept string values (assigning a non-string to them, or
touching class-level members such as the `settings` property, lies
outside the modelled domain). -/
def setCoinAttr (c : Coin) (k : String) (v : Val) : Coin :=
  match k, v with
  | "symbol", .str s => { c with symbol := s }
  | "symbol_id", .str s => { c with symbol_id := s }
  | "coin_type", _ => { c with coin_type := v }
  | "our_account", _ => { c with our_account := v }
  | "can_issue", _ => { c with can_issue := v }
  | "display_name", .str s => { c with display_name := s }
  | "setting_host", _ => { c with setting_host := v }
  | "setting_port", _ => { c with setting_port := v }
  | "setting_user", _ => { c with setting_user := v }
  | "setting_pass", _ => { c with setting_pass := v }
  | "setting_json", .str s => { c with setting_json := s }
  | _, _ => c

/-- `configure_coin(symbol, **config_opts)`.  `crpc` is the global
`HANDLER_SETTINGS['COIND_RPC']` map; `cmap` is `COIN_MAP`.  The symbol is
upper-cased first; the options are then right-merged into that entry
(creating it when absent) and `setattr`-applied to the matching `COIN_MAP`
coin when one exists.  Returns the updated maps and the merged entry the
function returns. -/
def configureCoin (crpc : List (String × List (String × Val))) (cmap : CoinMap)
    (symbol : String) (opts : List (String × Val)) :
    List (String × List (String × Val)) × CoinMap × List (String × Val) :=
  let sym := pyUpper symbol
  let merged := dictMerge ((alookup crpc sym).getD []) opts
  let crpc' := dictSet crpc sym merged
  let cmap' :=
    match alookup cmap sym with
    | Option.none => cmap
    | some _ =>
      cmap.map (fun kv =>
        if kv.1 = sym then (kv.1, opts.foldl (fun c kv2 => setCoinAttr c kv2.1 kv2.2) kv.2)
        else kv)
  (crpc', cmap', merged)

/-! ## Registry index and reload (privex/coin_handlers/__init__.py) -/

/-- An instantiated Loader/Manager, identified by the handler that built
it and the coin it was built for (`add_handler` passes `coins=[coin]` to
loaders and `coin=coin` to managers). -/
structure HInstance where
  hname : String
  csym : String
  deriving DecidableEq, Repr

/-- One value of the `handlers` index: `dict(loaders=[], managers=[])`. -/
structure IndexEntry where
  loaders : List HInstance
  managers : List HInstance
  deriving DecidableEq, Repr

/-- The process-wide `handlers` index: symbol → entry, insertion
ordered. -/
abbrev Index := List (String × IndexEntry)

/-- Which of the two instance lists `add_handler` appends to. -/
inductive HType where
  | ldr : HType
  | mgr : HType
  deriving DecidableEq, Repr

/-- `handlers[sym] = dict(loaders=[], managers=[])` when the key is
missing. -/
def ensureSym (hs : Index) (sym : String) : Index :=
  if (alookup hs sym).isSome then hs else hs ++ [(sym, ⟨[], []⟩)]

def addInst (e : IndexEntry) (t : HType) (h : HInstance) : IndexEntry :=
  match t with
  | .ldr => ⟨e.loaders ++ [h], e.managers⟩
  | .mgr => ⟨e.loaders, e.managers ++ [h]⟩

/-- `handlers[sym][handler_type].append(h)`. -/
def appendInst (hs : Index) (sym : String) (t : HType) (h : HInstance) : Index :=
  hs.map (fun kv => if kv.1 = sym then (kv.1, addInst kv.2 t h) else kv)

/-- The loop body of `add_handler(handler, handler_name, handler_type)`:
for each coin, create the symbol's index entry if missing, then construct
the handler instance and append it.  A constructor that raises aborts the
loop (the exception lands in `reload_handlers`' bare `except`) — the
entries and instances added before the failure stay in the index.  The
returned flag says whether a constructor raised. -/
def addHandlerCoins (ctor : Coin → Except Unit HInstance) (t : HType) :
    List Coin → Index → Index × Bool
  | [], hs => (hs, false)
  | c :: rest, hs =>
    let hs1 := ensureSym hs c.symbol
    match ctor c with
    | .error _ => (hs1, true)
    | .ok h => addHandlerCoins ctor t rest (appendInst hs1 c.symbol t h)

/-- What resolving a handler module yields: the optional `'loader'` and
`'manager'` entries of its `exports` dict, each a constructor that may
itself raise.  (Construction arguments — the settings map, the coin and
the entry's `kwargs` — are fixed for a given reload, so a constructor is
a function of the coin alone.) -/
structure HandlerExports where
  loader : Option (Coin → Except Unit HInstance)
  manager : Option (Coin → Except Unit HInstance)

/-- One `COIN_HANDLERS` entry as `reload_handlers` sees it: name, enabled
flag, coin list, and the outcome of `import_module` + `exports` access for
it (`.error` models any exception raised while resolving the module). -/
structure CatalogEntry where
  hname : String
  enabled : Bool
  coins : List Coin
  resolution : Except Unit HandlerExports

/-- The per-handler body of the `reload_handlers` loop: skip disabled
entries; skip entries whose module resolution raised; otherwise run the
loader pass then — only if no loader constructor raised — the manager
pass.  Any constructor exception is caught by the bare `except`, keeping
whatever was already added. -/
def processEntry (hs : Index) (e : CatalogEntry) : Index :=
  if e.enabled = false then hs
  else
    match e.resolution with
    | .error _ => hs
    | .ok ex =>
      let step1 :=
        match ex.loader with
        | some ctor => addHandlerCoins ctor .ldr e.coins hs
        | Option.none => (hs, false)
      if step1.2 then step1.1
      else
        match ex.manager with
        | some ctor => (addHandlerCoins ctor .mgr e.coins step1.1).1
        | Option.none => step1.1

/-- `reload_handlers()`: reset the index to `\x7b\x7d`, then process every
catalog entry in insertion order.  It always completes and returns the
rebuilt index. -/
def reloadHandlers (catalog : List CatalogEntry) : Index :=
  catalog.foldl processEntry []

/-- The successive values of the process-wide `handlers` global visible
to code running during a reload, at handler-entry granularity: the
pre-reload index, the freshly-cleared empty index, and the state after
each catalog entry is processed.  (Handler constructors run between these
states and read the global through the lookup helpers.) -/
def reloadVisible (pre : Index) (catalog : List CatalogEntry) : List Index :=
  pre :: catalog.scanl processEntry []

/-- `has_manager(symbol)`: membership is tested with the upper-cased
symbol but the subsequent subscript uses the symbol as given, so the
subscript can raise `KeyError`. -/
def hasManager (hs : Index) (symbol : String) : Except PyErr Bool :=
  if ((alookup hs (pyUpper symbol)).isSome : Bool) then
    match alookup hs symbol with
    | some e => .ok (e.managers.length > 0)
    | Option.none => .error .keyError
  else .ok false

/-- `has_loader(symbol)`: same shape as `has_manager`. -/
def hasLoader (hs : Index) (symbol : String) : Except PyErr Bool :=
  if ((alookup hs (pyUpper symbol)).isSome : Bool) then
    match alookup hs symbol with
    | some e => .ok (e.loaders.length > 0)
    | Option.none => .error .keyError
  else .ok false

/-- `get_manager(symbol)`: `handlers[symbol]['managers'][0]` — `KeyError`
for an unindexed symbol, `IndexError` for an indexed symbol with no
managers. -/
def getManager (hs : Index) (symbol : String) : Except PyErr HInstance :=
  match alookup hs symbol with
  | Option.none => .error .keyError
  | some e =>
    match e.managers with
    | [] => .error .indexError
    | h :: _ => .ok h

/-- `get_loader(symbol)`: same shape as `get_manager`. -/
def getLoader (hs : Index) (symbol : String) : Except PyErr HInstance :=
  match alookup hs symbol with
  | Option.none => .error .keyError
  | some e =>
    match e.loaders with
    | [] => .error .indexError
    | h :: _ => .ok h

/-- The instance `h` is filed in the index under `sym` in the list for
`t`. -/
def hasInst (hs : Index) (sym : String) (t : HType) (h : HInstance) : Prop :=
  ∃ e, alookup hs sym = some e ∧
    h ∈ (match t with | .ldr => e.loaders | .mgr => e.managers)

/-! ## Association-list lemmas -/

theorem alookup_append {α : Type} (l1 l2 : List (String × α)) (k : String) :
    alookup (l1 ++ l2) k = ((alookup l1 k).orElse (fun _ => alookup l2 k)) := by
  induction l1 with
  | nil => rfl
  | cons hd tl ih =>
    by_cases h : hd.1 = k
    · simp [alookup, h, Option.orElse]
    · simp [alookup, h, ih]

theorem alookup_map_ite {α : Type} (d : List (String × α)) (k q : String) (f : α → α) :
    alookup (d.map fun kv => if kv.1 = k then (kv.1, f kv.2) else kv) q
      = if k = q then (alookup d q).map f else alookup d q := by
  induction d with
  | nil => simp [alookup]
  | cons hd tl ih =>
    obtain ⟨a, b⟩ := hd
    simp only [List.map_cons]
    by_cases hk : a = k
    · rw [if_pos (by simpa using hk)]
      by_cases hq : a = q
      · have hkq : k = q := hk ▸ hq
        simp [alookup, hq, hkq]
      · have hkq : ¬ k = q := fun he => hq (hk.trans he)
        simp [alookup, hq, hkq, ih]
    · rw [if_neg (by simpa using hk)]
      by_cases hq : a = q
      · have hkq : ¬ k = q := fun he => hk (hq.trans he.symm)
        simp [alookup, hq, hkq]
      · simp [alookup, hq, ih]

theorem alookup_dictSet {α : Type} (d : List (String × α)) (k : String) (v : α) :
    alookup (dictSet d k v) k = some v := by
  unfold dictSet
  cases hdk : alookup d k with
  | none => rw [alookup_append, hdk]; simp [alookup, Option.orElse]
  | some w =>
    have h := alookup_map_ite d k k (fun _ => v)
    simp only [if_pos rfl, hdk, Option.map_some'] at h
    exact h

/-! ## Concrete instances used by counterexamples and evaluations -/

/-- `Coin(symbol=sym)` with every optional argument left to its
default. -/
def bareCoin (sym : String) : Coin :=
  mkCoin sym Option.none Option.none Option.none Option.none Option.none
    Option.none Option.none Option.none Option.none Option.none

/-- The key-store scenario credential:
`set(network='golos', account='alice', key_type='active', private_key='X')`. -/
def demoKPArgs : KPArgs :=
  ⟨"golos", "X", Option.none, some "alice", some "active", Option.none, Option.none⟩

/-- A `handlers` index holding the upper-case symbol `BTC` and the
mixed-case symbol `TestCoin`, each with one loader and one manager. -/
def demoIndex : Index :=
  [("BTC", ⟨[⟨"Bitcoin", "BTC"⟩], [⟨"Bitcoin", "BTC"⟩]⟩),
   ("TestCoin", ⟨[⟨"Bitcoin", "TestCoin"⟩], [⟨"Bitcoin", "TestCoin"⟩]⟩)]

/-- A catalog whose `Bitcoin` handler already lists the coin `BTC`. -/
def demoCat7 : Catalog := [("Bitcoin", ⟨true, [bareCoin "BTC"]⟩)]

/-- A Monero backend where `addr_one` validates and `simple_transfer`
succeeds, echoing the requested amount. -/
def moneroDemoEnv : MoneroEnv :=
  ⟨["addr_one"], fun a _ _ => .ok ⟨"txhash_one", a, 0⟩⟩

def alphaLoaderCtor : Coin → Except Unit HInstance := fun c => .ok ⟨"Alpha", c.symbol⟩
def betaLoaderCtor : Coin → Except Unit HInstance := fun c => .ok ⟨"Beta", c.symbol⟩

/-- A healthy enabled handler covering the symbol `AAA`. -/
def alphaEntry : CatalogEntry :=
  ⟨"Alpha", true, [bareCoin "AAA"], .ok ⟨some alphaLoaderCtor, some alphaLoaderCtor⟩⟩

/-- A healthy enabled handler covering the symbol `BBB`. -/
def betaEntry : CatalogEntry :=
  ⟨"Beta", true, [bareCoin "BBB"], .ok ⟨some betaLoaderCtor, some betaLoaderCtor⟩⟩

/-- Two healthy enabled handlers covering the distinct symbols `AAA` and
`BBB`. -/
def alphaBetaCatalog : List CatalogEntry := [alphaEntry, betaEntry]

def golosLoaderCtor : Coin → Except Unit HInstance := fun c => .ok ⟨"Golos", c.symbol⟩
def golosFailingMgrCtor : Coin → Except Unit HInstance := fun _ => .error ()

/-- An enabled handler whose module resolves and whose loader constructs,
but whose manager constructor raises. -/
def golosFailEntry : CatalogEntry :=
  ⟨"Golos", true, [bareCoin "GOLOS"], .ok ⟨some golosLoaderCtor, some golosFailingMgrCtor⟩⟩

/-! ## Claim theorems -/

/-- C4.  The claim fails on the code: `MemoryKeyStore.set` without an `id`
does append a new `KeyPair` carrying the next sequential id (`len + 1`,
here `1`), but a subsequent `get` filtering on that very id returns
`None`, because `get` compares the `id` filter against the 0-based
`enumerate` position of each element rather than against the pair's `id`
attribute.  The remaining parts of the claim hold: conjunction-of-filters
lookup returns the stored pair, and an unmatched filter set returns
`None` without raising. -/
theorem memoryKeyStore_id_filter_mismatch :
    (msSetNew [] demoKPArgs).2.id = some 1
    ∧ msGet (msSetNew [] demoKPArgs).1 ({ noFilters with id := some 1 }) = Option.none
    ∧ msGet (msSetNew [] demoKPArgs).1
        ({ noFilters with
           network := some "golos", account := some "alice",
           key_type__in := some ["active"] }) = some (msSetNew [] demoKPArgs).2
    ∧ msGet (msSetNew [] demoKPArgs).1
        ({ noFilters with
           network := some "golos", account := some "bob",
           key_type__in := some ["active"] }) = Option.none :=
  ⟨rfl, rfl, rfl, rfl⟩

/-- C6.  The claim fails on the code: `has_manager`/`has_loader` test
membership with `symbol.upper()` but subscript with the raw `symbol`, so
for the lower-case query `btc` against an index holding `BTC` they raise
`KeyError` instead of returning a boolean, and for the indexed mixed-case
symbol `TestCoin` (which does have a manager, as `get_manager` shows) they
return `False`.  The `get_manager`/`get_loader` part of the claim does
hold: an unindexed symbol raises a missing-key `KeyError`. -/
theorem registry_lookup_case_mismatch :
    hasManager demoIndex "btc" = .error PyErr.keyError
    ∧ hasLoader demoIndex "btc" = .error PyErr.keyError
    ∧ hasManager demoIndex "TestCoin" = .ok false
    ∧ getManager demoIndex "TestCoin" = .ok ⟨"Bitcoin", "TestCoin"⟩
    ∧ hasManager demoIndex "BTC" = .ok true
    ∧ hasLoader demoIndex "BTC" = .ok true
    ∧ getManager demoIndex "ZZZ" = .error PyErr.keyError
    ∧ getLoader demoIndex "ZZZ" = .error PyErr.keyError :=
  ⟨rfl, rfl, rfl, rfl, rfl, rfl, rfl, rfl⟩

/-- C3 (counterexample).  `MoneroManager.send` refutes the universally
quantified claim: for an amount of `10⁻¹³` XMR — below one unit of the
asset's 12-decimal-place precision — it invokes the backend broadcast
`simple_transfer` with the amount unrounded and returns its result,
instead of failing with an arithmetic/precision condition before
broadcasting. -/
theorem moneroSend_below_precision_broadcasts :
    (moneroSend moneroDemoEnv "XMR" ((1 : ℚ) / 10 ^ 13) "addr_one" Option.none).broadcasts
      = [⟨(1 : ℚ) / 10 ^ 13, "addr_one", 0⟩]
    ∧ (moneroSend moneroDemoEnv "XMR" ((1 : ℚ) / 10 ^ 13) "addr_one" Option.none).result
      = .ok ⟨"txhash_one", (1 : ℚ) / 10 ^ 13, 0, Option.none, Option.none, Option.none,
             "XMR", "send", 0⟩
    ∧ (1 : ℚ) / 10 ^ 13 < (1 : ℚ) / 10 ^ 12 :=
  ⟨rfl, rfl, by norm_num⟩

/-- C5 (counterexample).  `reload_handlers` does not present an
all-or-nothing swap: reloading the two-handler catalog makes a state
visible through the process-wide index — after `Alpha` is loaded and
while `Beta` is being constructed — that is neither the pre-reload index
(here empty) nor the final rebuilt index. -/
theorem reload_observable_midstate :
    ∃ mid, mid ∈ reloadVisible [] alphaBetaCatalog ∧ mid ≠ ([] : Index)
      ∧ mid ≠ reloadHandlers alphaBetaCatalog := by
  refine ⟨[("AAA", ⟨[⟨"Alpha", "AAA"⟩], [⟨"Alpha", "AAA"⟩]⟩)], ?_, ?_, ?_⟩
  · exact List.Mem.tail _ (List.Mem.tail _ (List.Mem.head _))
  · intro h
    exact absurd (congrArg List.length h) (by decide)
  · intro h
    exact absurd (congrArg List.length h) (by decide)

/-- C8 (counterexample).  A handler whose manager constructor raises is
not "skipped entirely": the loader instance it registered before the
failure stays in the rebuilt index (under `GOLOS` here), so the index
retains a partial registration of the failed handler. -/
theorem reload_keeps_partial_failed_handler :
    golosFailingMgrCtor (bareCoin "GOLOS") = .error ()
    ∧ reloadHandlers [golosFailEntry] = [("GOLOS", ⟨[⟨"Golos", "GOLOS"⟩], []⟩)] :=
  ⟨rfl, rfl⟩

/-- C7 (counterexample).  `add_handler_coin` does not match coins
case-sensitively: with the handler's list holding only a coin with symbol
`BTC` (so no coin whose symbol equals `btc` is present), adding a coin
with symbol `btc` leaves the catalog and coin map unchanged and reports
`False`, because `handler_has_coin` upper-cases both sides before
comparing — a case-sensitive match would have appended it. -/
theorem addHandlerCoin_matches_case_insensitively :
    addHandlerCoin demoCat7 [] "Bitcoin" (.inl (bareCoin "btc"))
      = .ok (demoCat7, [], false)
    ∧ ∀ c ∈ (((alookup demoCat7 "Bitcoin").getD ⟨true, []⟩).coins), c.symbol ≠ "btc" := by
  refine ⟨rfl, ?_⟩
  intro c hc
  have he : (((alookup demoCat7 "Bitcoin").getD ⟨true, []⟩).coins) = [bareCoin "BTC"] := rfl
  rw [he, List.mem_singleton] at hc
  subst hc
  decide

/-- C10.  `configure_coin` upper-cases its symbol before any effect:
calling it with any symbol has exactly the same result as calling it with
the upper-cased symbol (so a lower-cased symbol can never create a
separate settings entry or touch a different catalog coin), and the
`COIND_RPC` map it returns holds, at the upper-cased key, the previous
entry (empty when absent) right-merged with the supplied options. -/
theorem configureCoin_symbol_normalized :
    ∀ (crpc : List (String × List (String × Val))) (cmap : CoinMap)
      (symbol : String) (opts : List (String × Val)),
      configureCoin crpc cmap symbol opts = configureCoin crpc cmap (pyUpper symbol) opts
      ∧ alookup (configureCoin crpc cmap symbol opts).1 (pyUpper symbol)
          = some (dictMerge ((alookup crpc (pyUpper symbol)).getD []) opts) := by
  intro crpc cmap symbol opts
  constructor
  · unfold configureCoin
    rw [pyUpper_idem]
  · unfold configureCoin
    exact alookup_dictSet crpc (pyUpper symbol) _

/-- C1.  `get_setting(symbol, key, default)` resolves by first-match-wins
precedence over four layers — the `COIN_<SYMBOL>_<KEY>` environment
override, the settings map passed to the constructor, the probe of the
associated coin object(s) via `find_obj_key` (original/lower/upper-cased
attributes, then dict items, then the nested settings/JSON extras), and
the supplied default — and when every layer misses it returns the default
instead of raising. -/
theorem getSetting_layered_precedence :
    ∀ (envv : String → Option String) (dec : JsonDecoder) (h : Handler)
      (symbol key : String) (dflt : Val),
      getSetting envv dec h symbol key dflt = resolveLayers envv dec h symbol key dflt
      ∧ (envv ("COIN_" ++ pyUpper symbol ++ "_" ++ pyUpper key) = Option.none →
         alookup ((alookup h.allsettings (pyUpper symbol)).getD []) key = Option.none →
         (∀ c, h.coin = some c → (findObjKey dec key c).toOption = Option.none) →
         (∀ cs, h.coins = some cs →
           (findObjKey dec key ((alookup cs symbol).getD (.dict []))).toOption = Option.none) →
         getSetting envv dec h symbol key dflt = dflt) := by
  intro envv dec h symbol key dflt
  have heq : getSetting envv dec h symbol key dflt = resolveLayers envv dec h symbol key dflt := by
    unfold getSetting resolveLayers
    cases envv ("COIN_" ++ pyUpper symbol ++ "_" ++ pyUpper key) with
    | some v => simp
    | none =>
      simp only [Option.map_none', Option.none_orElse]
      cases alookup ((alookup h.allsettings (pyUpper symbol)).getD []) key with
      | some v => simp
      | none =>
        simp only [Option.none_orElse]
        cases hc : h.coin with
        | some c =>
          cases hfc : (findObjKey dec key c).toOption with
          | some v => simp [hfc]
          | none =>
            cases h.coins with
            | some cs =>
              cases hfs : (findObjKey dec key ((alookup cs symbol).getD (.dict []))).toOption with
              | some v => simp [hfc, hfs]
              | none => simp [hfc, hfs]
            | none => simp [hfc]
        | none =>
          cases h.coins with
          | some cs =>
            cases hfs : (findObjKey dec key ((alookup cs symbol).getD (.dict []))).toOption with
            | some v => simp [hfs]
            | none => simp [hfs]
          | none => simp
  refine ⟨heq, ?_⟩
  intro he hs hcn hcs
  rw [heq]
  unfold resolveLayers
  rw [he, hs]
  have h3 : (h.coin.bind fun c => (findObjKey dec key c).toOption) = Option.none := by
    cases hc : h.coin with
    | some c => simpa using hcn c hc
    | none => rfl
  have h4 : (h.coins.bind fun cs =>
      (findObjKey dec key ((alookup cs symbol).getD (.dict []))).toOption) = Option.none := by
    cases hc : h.coins with
    | some cs => simpa using hcs cs hc
    | none => rfl
  rw [h3, h4]
  rfl

/-- C1 (witness): a handler with no environment override, an empty
settings map and neither `coin` nor `coins` resolves any key to the
supplied default. -/
theorem getSetting_layered_precedence_witness :
    getSetting (fun _ => Option.none) (fun _ => .error ())
      ⟨[], Option.none, Option.none⟩ "BTC" "host" (.str "fallback") = .str "fallback" := by
  have h := (getSetting_layered_precedence (fun _ => Option.none) (fun _ => .error ())
    ⟨[], Option.none, Option.none⟩ "BTC" "host" (.str "fallback")).2
  exact h rfl rfl (fun c hc => nomatch hc) (fun cs hcs => nomatch hcs)

/-- C2.  For a receive-type (`'in'`) Monero transaction passing the
address filter, with confirmations below the coin's configured
`confirms_needed`: `_clean_tx` excludes it (returns the "not applicable"
`None`) exactly when its confirmations are also below the backend's
`suggested_confirmations_threshold`, and includes it — emitting the full
Deposit dict — when they are at or above that trusted threshold. -/
theorem cleanTx_confirmation_policy :
    ∀ (settings : List (String × List (String × Val))) (coins : List (String × Coin))
      (symbol : String) (tx : MoneroTransfer) (address : Option String)
      (sdict : List (String × Val)) (nc : ℤ) (c : Coin),
      alookup settings symbol = some sdict →
      needConfs sdict = .ok nc →
      tx.type = "in" →
      (pyEmptyStr address = true ∨ tx.address = address.getD "") →
      alookup coins symbol = some c →
      tx.confirmations < nc →
      (tx.confirmations < tx.suggested_confirmations_threshold →
        cleanTx settings coins symbol tx address = .ok Option.none)
      ∧ (tx.suggested_confirmations_threshold ≤ tx.confirmations →
        cleanTx settings coins symbol tx address
          = .ok (some ⟨tx.txid, c.symbol, 0, tx.timestamp, tx.address, tx.decimal_amount⟩)) := by
  intro settings coins symbol tx address sdict nc c hs hn ht ha hc hlow
  have haddr : ¬ (¬ pyEmptyStr address ∧ tx.address ≠ address.getD "") := by
    rcases ha with ha | ha
    · intro hcon
      exact hcon.1 (by simp [ha])
    · intro hcon
      exact hcon.2 ha
  constructor
  · intro hth
    unfold cleanTx
    rw [hs]
    dsimp only
    rw [hn]
    dsimp only
    rw [if_neg (by simp [ht]), if_neg haddr, if_pos hlow, if_pos hth]
  · intro hth
    unfold cleanTx
    rw [hs]
    dsimp only
    rw [hn]
    dsimp only
    rw [if_neg (by simp [ht]), if_neg haddr, if_pos hlow, if_neg (not_lt.mpr hth), hc]

/-- C2 (witness): with `confirms_needed = 2`, a receive transaction with
one confirmation is dropped when the trusted threshold is `3` and emitted
when the trusted threshold is `1`. -/
theorem cleanTx_confirmation_policy_witness :
    cleanTx [("XMR", [("confirms_needed", .int 2)])] [("XMR", bareCoin "XMR")] "XMR"
        ⟨"tx1", "in", 5/2, "addr9", 1, 3, 1577836800⟩ Option.none = .ok Option.none
    ∧ cleanTx [("XMR", [("confirms_needed", .int 2)])] [("XMR", bareCoin "XMR")] "XMR"
        ⟨"tx1", "in", 5/2, "addr9", 1, 1, 1577836800⟩ Option.none
      = .ok (some ⟨"tx1", "XMR", 0, 1577836800, "addr9", 5/2⟩) := by
  constructor
  · exact (cleanTx_confirmation_policy [("XMR", [("confirms_needed", .int 2)])]
      [("XMR", bareCoin "XMR")] "XMR" ⟨"tx1", "in", 5/2, "addr9", 1, 3, 1577836800⟩
      Option.none [("confirms_needed", .int 2)] 2 (bareCoin "XMR")
      rfl rfl rfl (Or.inl rfl) rfl (by decide)).1 (by decide)
  · exact (cleanTx_confirmation_policy [("XMR", [("confirms_needed", .int 2)])]
      [("XMR", bareCoin "XMR")] "XMR" ⟨"tx1", "in", 5/2, "addr9", 1, 1, 1577836800⟩
      Option.none [("confirms_needed", .int 2)] 2 (bareCoin "XMR")
      rfl rfl rfl (Or.inl rfl) rfl (by decide)).2 (by decide)

/-- C9.  A `Coin` constructed without explicit `symbol_id` or
`display_name` gets both defaulted to its `symbol`; and the derived
`settings` view is total for every coin and every decode outcome — it
always returns the four typed connection fields, with the `json` extras
entry degrading to an empty map when the blob fails to decode and
carrying the decoded map when it succeeds. -/
theorem coin_defaults_and_settings_view :
    ∀ (sym : String) (ct oa ci sh sp su spw : Option Val) (sj : Option String),
      (mkCoin sym Option.none ct oa ci Option.none sh sp su spw sj).symbol_id = sym
      ∧ (mkCoin sym Option.none ct oa ci Option.none sh sp su spw sj).display_name = sym
      ∧ ∀ (dec : JsonDecoder) (c : Coin), ∃ j,
          coinSettingsDict dec c
            = [("host", c.setting_host), ("port", c.setting_port), ("user", c.setting_user),
               ("password", c.setting_pass), ("json", .dict j)]
          ∧ (∀ e, dec c.setting_json = .error e → j = [])
          ∧ (∀ jj, dec c.setting_json = .ok jj → j = jj) := by
  intro sym ct oa ci sh sp su spw sj
  refine ⟨rfl, rfl, ?_⟩
  intro dec c
  refine ⟨(match dec c.setting_json with | .ok j => j | .error _ => []), rfl, ?_, ?_⟩
  · intro e he
    rw [he]
  · intro jj hj
    rw [hj]

/-- C9 (witness): a bare `Coin(symbol='BTC')` has `symbol_id` and
`display_name` equal to `BTC`, and with a decoder that rejects its blob
the settings view still returns the four (here `None`-valued) typed
fields with an empty extras map. -/
theorem coin_defaults_and_settings_view_witness :
    (bareCoin "BTC").symbol_id = "BTC"
    ∧ (bareCoin "BTC").display_name = "BTC"
    ∧ coinSettingsDict (fun _ => .error ()) (bareCoin "BTC")
      = [("host", .none), ("port", .none), ("user", .none), ("password", .none),
         ("json", .dict [])] := by
  obtain ⟨h1, h2, h3⟩ := coin_defaults_and_settings_view "BTC" Option.none Option.none
    Option.none Option.none Option.none Option.none Option.none Option.none
  obtain ⟨j, hj, hje, -⟩ := h3 (fun _ => .error ()) (bareCoin "BTC")
  refine ⟨h1, h2, ?_⟩
  rw [hj, hje () rfl]
  rfl

/-! ### Rounding lemmas for `dec_round(..., rounding=ROUND_DOWN)` -/

theorem decRoundDown_le_self (q : ℚ) (dp : ℕ) (h : 0 ≤ q) : decRoundDown q dp ≤ q := by
  unfold decRoundDown
  dsimp only
  have hp : (0 : ℚ) < (10 : ℚ) ^ dp := by positivity
  have hs : (0 : ℚ) ≤ q * (10 : ℚ) ^ dp := mul_nonneg h (le_of_lt hp)
  rw [if_neg (not_lt.mpr hs)]
  have hfl : ((⌊q * (10 : ℚ) ^ dp⌋ : ℤ) : ℚ) ≤ q * (10 : ℚ) ^ dp := Int.floor_le _
  calc ((⌊q * (10 : ℚ) ^ dp⌋ : ℤ) : ℚ) / (10 : ℚ) ^ dp
      ≤ (q * (10 : ℚ) ^ dp) / (10 : ℚ) ^ dp := by
        rw [div_eq_mul_inv, div_eq_mul_inv]
        exact mul_le_mul_of_nonneg_right hfl (by positivity)
    _ = q := by field_simp

theorem decRoundDown_nonpos (q : ℚ) (dp : ℕ) (h : q ≤ 0) : decRoundDown q dp ≤ 0 := by
  unfold decRoundDown
  dsimp only
  have hp : (0 : ℚ) < (10 : ℚ) ^ dp := by positivity
  have hs : q * (10 : ℚ) ^ dp ≤ 0 := mul_nonpos_of_nonpos_of_nonneg h (le_of_lt hp)
  by_cases hneg : q * (10 : ℚ) ^ dp < 0
  · rw [if_pos hneg]
    have hcl : (⌈q * (10 : ℚ) ^ dp⌉ : ℤ) ≤ 0 := Int.ceil_le.mpr (by exact_mod_cast hs)
    apply div_nonpos_of_nonpos_of_nonneg _ (le_of_lt hp)
    exact_mod_cast hcl
  · rw [if_neg hneg]
    have hfl : (⌊q * (10 : ℚ) ^ dp⌋ : ℤ) ≤ 0 := Int.floor_nonpos hs
    apply div_nonpos_of_nonpos_of_nonneg _ (le_of_lt hp)
    exact_mod_cast hfl

theorem decRoundDown_le_zero_of_lt_unit (q : ℚ) (dp : ℕ)
    (h : q < 1 / (10 : ℚ) ^ dp) : decRoundDown q dp ≤ 0 := by
  have hp : (0 : ℚ) < (10 : ℚ) ^ dp := by positivity
  have hs1 : q * (10 : ℚ) ^ dp < 1 := by
    have := mul_lt_mul_of_pos_right h hp
    rwa [one_div_mul_cancel (ne_of_gt hp)] at this
  unfold decRoundDown
  dsimp only
  by_cases hneg : q * (10 : ℚ) ^ dp < 0
  · rw [if_pos hneg]
    have hcl : (⌈q * (10 : ℚ) ^ dp⌉ : ℤ) ≤ 0 :=
      Int.ceil_le.mpr (by exact_mod_cast le_of_lt hneg)
    apply div_nonpos_of_nonpos_of_nonneg _ (le_of_lt hp)
    exact_mod_cast hcl
  · rw [if_neg hneg]
    have hfl : (⌊q * (10 : ℚ) ^ dp⌋ : ℤ) < 1 := by
      rw [Int.floor_lt]
      exact_mod_cast hs1
    have hfl0 : (⌊q * (10 : ℚ) ^ dp⌋ : ℤ) ≤ 0 := by omega
    apply div_nonpos_of_nonpos_of_nonneg _ (le_of_lt hp)
    exact_mod_cast hfl0

theorem pos_of_decRoundDown_pos (q : ℚ) (dp : ℕ) (h : 0 < decRoundDown q dp) : 0 < q := by
  by_contra hq
  exact absurd h (not_lt.mpr (decRoundDown_nonpos q dp (not_lt.mp hq)))

/-- C3 (amended).  `GolosManager.send` rounds the requested amount down
to the asset's precision — every backend broadcast it makes carries
`dec_round(amount, precision, ROUND_DOWN)`, never more than the request —
and, when the requested amount is below one unit of the asset's
precision, it fails with an `ArithmeticError` without making any
broadcast call (given a resolvable source account and valid
destination/source, the checks that precede the rounding step).
`MoneroManager.send`, by contrast, performs no rounding and no precision
check: whenever the address validates, it forwards the requested amount
unchanged to the backend `simple_transfer`. -/
theorem send_rounding_policy_amended :
    ∀ (env : GolosEnv) (symbol : String) (amount : ℚ) (address : String)
      (fromAddress memo : Option String),
      0 < env.unitBound →
      (∀ call ∈ (golosSend env symbol amount address fromAddress memo).broadcasts,
        call.amount = decRoundDown amount env.precision ∧ call.amount ≤ amount)
      ∧ (∀ fa, (if pyEmptyStr fromAddress then env.ourAccount else fromAddress) = some fa →
          address ∈ env.validAccounts → fa ∈ env.validAccounts →
          amount < 1 / (10 : ℚ) ^ env.precision →
          golosSend env symbol amount address fromAddress memo
            = ⟨.error .arithmeticError, []⟩)
      ∧ (∀ (menv : MoneroEnv) (msym : String) (mamount : ℚ) (maddr : String)
          (mfrom : Option ℤ),
          (moneroSend menv msym mamount maddr mfrom).broadcasts
            = if maddr ∈ menv.validAddresses then [⟨mamount, maddr, mfrom.getD 0⟩] else []) := by
  intro env symbol amount address fromAddress memo hb
  refine ⟨?_, ?_, ?_⟩
  · unfold golosSend
    cases hfa : (if pyEmptyStr fromAddress then env.ourAccount else fromAddress) with
    | none => intro call hc; exact absurd hc (List.not_mem_nil call)
    | some fa =>
      dsimp only
      by_cases hv1 : address ∈ env.validAccounts
      · rw [if_neg (not_not_intro hv1)]
        by_cases hv2 : fa ∈ env.validAccounts
        · rw [if_neg (not_not_intro hv2)]
          by_cases hlow : decRoundDown amount env.precision < env.unitBound
          · rw [if_pos hlow]
            intro call hc
            exact absurd hc (List.not_mem_nil call)
          · rw [if_neg hlow]
            by_cases hbal : env.balances fa < decRoundDown amount env.precision
            · rw [if_pos hbal]
              intro call hc
              exact absurd hc (List.not_mem_nil call)
            · rw [if_neg hbal]
              cases msGet env.keystore
                  ({ noFilters with
                     network := some "golos", account := some fa,
                     key_type__in := some ["active"] }) with
              | none => intro call hc; exact absurd hc (List.not_mem_nil call)
              | some kp =>
                intro call hc
                rw [List.mem_singleton] at hc
                subst hc
                refine ⟨rfl, ?_⟩
                have hpos : 0 < decRoundDown amount env.precision :=
                  lt_of_lt_of_le hb (not_lt.mp hlow)
                exact decRoundDown_le_self amount env.precision
                  (le_of_lt (pos_of_decRoundDown_pos amount env.precision hpos))
        · rw [if_pos hv2]
          intro call hc
          exact absurd hc (List.not_mem_nil call)
      · rw [if_pos hv1]
        intro call hc
        exact absurd hc (List.not_mem_nil call)
  · intro fa hfa hv1 hv2 hunit
    unfold golosSend
    rw [hfa]
    dsimp only
    rw [if_neg (not_not_intro hv1), if_neg (not_not_intro hv2)]
    have hle : decRoundDown amount env.precision ≤ 0 :=
      decRoundDown_le_zero_of_lt_unit amount env.precision hunit
    rw [if_pos (lt_of_le_of_lt hle hb)]
  · intro menv msym mamount maddr mfrom
    unfold moneroSend
    by_cases hv : maddr ∈ menv.validAddresses
    · rw [if_neg (not_not_intro hv), if_pos hv]
      cases htr : menv.transfer mamount maddr (mfrom.getD 0) with
      | error e => cases e <;> rfl
      | ok snd => rfl
    · rw [if_pos hv, if_neg hv]

/-- C3 (witness): precision 3, unit bound the float value of `10 ** -3`
(`0.001000000000000000020816681711721685…`), a valid destination and
source with ample balance and a stored key: a requested amount of `1/2000`
(below one thousandth) yields `ArithmeticError` with no broadcast; and
every broadcast of a send of `0.1235` carries the rounded-down `0.123`. -/
theorem send_rounding_policy_amended_witness :
    golosSend
      ⟨some "ouracct", ["alice", "ouracct"], 3,
       1/1000 + 20816681711721685/(10 : ℚ)^37,
       (fun _ => 100), (msSetNew [] demoKPArgs).1, "gtx1"⟩
      "GOLOS" (1/2000) "alice" Option.none Option.none
      = ⟨.error .arithmeticError, []⟩
    ∧ (∀ call ∈ (golosSend
        ⟨some "ouracct", ["alice", "ouracct"], 3,
         1/1000 + 20816681711721685/(10 : ℚ)^37,
         (fun _ => 100), (msSetNew [] demoKPArgs).1, "gtx1"⟩
        "GOLOS" (1235/10000) "alice" Option.none Option.none).broadcasts,
        call.amount = 123/1000)
    ∧ (moneroSend moneroDemoEnv "XMR" (1/2000) "addr_one" Option.none).broadcasts
      = [⟨1/2000, "addr_one", 0⟩] := by
  have h1 := send_rounding_policy_amended
    ⟨some "ouracct", ["alice", "ouracct"], 3,
     1/1000 + 20816681711721685/(10 : ℚ)^37,
     (fun _ => 100), (msSetNew [] demoKPArgs).1, "gtx1"⟩
    "GOLOS" (1/2000) "alice" Option.none Option.none (by norm_num)
  have h2 := send_rounding_policy_amended
    ⟨some "ouracct", ["alice", "ouracct"], 3,
     1/1000 + 20816681711721685/(10 : ℚ)^37,
     (fun _ => 100), (msSetNew [] demoKPArgs).1, "gtx1"⟩
    "GOLOS" (1235/10000) "alice" Option.none Option.none (by norm_num)
  refine ⟨?_, ?_, ?_⟩
  · exact h1.2.1 "ouracct" rfl (by decide) (by decide) (by norm_num)
  · intro call hc
    have := (h2.1 call hc).1
    rw [this]
    norm_num [decRoundDown]
  · have := h2.2.2 moneroDemoEnv "XMR" (1/2000) "addr_one" Option.none
    rw [this]
    rw [if_pos (by decide)]
    rfl

theorem scanl_get_eq_foldl_take {α β : Type} (f : β → α → β) :
    ∀ (l : List α) (b : β) (k : ℕ), k ≤ l.length →
      (List.scanl f b l).get? k = some ((l.take k).foldl f b) := by
  intro l
  induction l with
  | nil =>
    intro b k hk
    have hk0 : k = 0 := Nat.le_zero.mp hk
    subst hk0
    rfl
  | cons a tl ih =>
    intro b k hk
    cases k with
    | zero => rfl
    | succ k' =>
      rw [List.scanl_cons, List.singleton_append, List.get?_cons_succ, List.take_succ_cons,
        List.foldl_cons]
      exact ih (f b a) k' (Nat.succ_le_succ_iff.mp hk)

/-- C5 (amended).  `reload_handlers` clears the process-wide index and
then mutates it incrementally, one catalog entry at a time: the first
state visible during a reload is the pre-reload index, the next is the
freshly-cleared empty index, and after the first `k` catalog entries are
processed the visible index is exactly the index rebuilt from those `k`
entries alone — a partially populated registry that code invoked during
the rebuild (such as later handlers' constructors) can observe through
the lookup functions.  Only the state after the last entry equals the
fully rebuilt index. -/
theorem reload_incremental_visibility :
    ∀ (pre : Index) (catalog : List CatalogEntry) (k : ℕ), k ≤ catalog.length →
      (reloadVisible pre catalog).get? 0 = some pre
      ∧ (reloadVisible pre catalog).get? (k + 1)
          = some (reloadHandlers (catalog.take k)) := by
  intro pre catalog k hk
  constructor
  · rfl
  · show (pre :: List.scanl processEntry [] catalog).get? (k + 1) = _
    rw [List.get?_cons_succ]
    exact scanl_get_eq_foldl_take processEntry catalog [] k hk

/-- C5 (witness): on the two-handler demo catalog, the visible state
after one entry is the index rebuilt from `Alpha` alone. -/
theorem reload_incremental_visibility_witness :
    (reloadVisible [] alphaBetaCatalog).get? 0 = some []
    ∧ (reloadVisible [] alphaBetaCatalog).get? 2
        = some (reloadHandlers (alphaBetaCatalog.take 1)) :=
  reload_incremental_visibility [] alphaBetaCatalog 1 (by decide)

theorem handlerHasCoin_catAppendCoin (cat : Catalog) (hname : String) (c : Coin) :
    handlerHasCoin (catAppendCoin cat hname c) hname c.symbol = true := by
  unfold handlerHasCoin catAppendCoin
  cases hch : alookup cat hname with
  | none =>
    rw [alookup_append, hch]
    simp [alookup]
  | some conf =>
    rw [alookup_map_ite cat hname hname (fun conf => ⟨conf.enabled, conf.coins ++ [c]⟩),
      if_pos rfl, hch]
    simp

/-- C7 (amended).  `add_handler_coin` is idempotent with coins matched by
symbol case-insensitively (both sides upper-cased), not case-sensitively:
once a call has succeeded, repeating it with the same coin leaves the
catalog and coin map unchanged and reports `False`; a coin whose symbol
is already present (up to case) is never appended again; and a bare
symbol string absent (after upper-casing) from the symbol → `Coin`
catalog fails with `TokenNotFound`. -/
theorem addHandlerCoin_amended :
    ∀ (cat : Catalog) (cmap : CoinMap) (hname : String) (c : Coin)
      (cat2 : Catalog) (cmap2 : CoinMap) (b : Bool),
      (addHandlerCoin cat cmap hname (.inl c) = .ok (cat2, cmap2, b) →
        addHandlerCoin cat2 cmap2 hname (.inl c) = .ok (cat2, cmap2, false))
      ∧ (handlerHasCoin cat hname c.symbol = true →
        addHandlerCoin cat cmap hname (.inl c) = .ok (cat, cmap, false))
      ∧ (∀ s, alookup cmap (pyUpper s) = Option.none →
        addHandlerCoin cat cmap hname (.inr s) = .error .tokenNotFound) := by
  intro cat cmap hname c cat2 cmap2 b
  refine ⟨?_, ?_, ?_⟩
  · intro hadd
    unfold addHandlerCoin addCoinProceed at hadd ⊢
    dsimp only at hadd ⊢
    by_cases hh : handlerHasCoin cat hname c.symbol
    · rw [if_pos hh] at hadd
      simp only [Except.ok.injEq, Prod.mk.injEq] at hadd
      obtain ⟨h1, h2, h3⟩ := hadd
      subst h1
      subst h2
      rw [if_pos hh]
    · rw [if_neg hh] at hadd
      simp only [Except.ok.injEq, Prod.mk.injEq] at hadd
      obtain ⟨h1, h2, h3⟩ := hadd
      subst h1
      subst h2
      rw [if_pos (handlerHasCoin_catAppendCoin cat hname c)]
  · intro hh
    unfold addHandlerCoin addCoinProceed
    dsimp only
    rw [if_pos hh]
  · intro s hs
    unfold addHandlerCoin
    dsimp only
    rw [hs]

/-- C7 (witness): adding `BTC` to an empty catalog appends it; repeating
the call returns the same catalog and coin map with `False`; and the
unknown bare symbol `DOGE` fails with `TokenNotFound`. -/
theorem addHandlerCoin_amended_witness :
    addHandlerCoin demoCat7 [("BTC", bareCoin "BTC")] "Bitcoin" (.inl (bareCoin "BTC"))
      = .ok (demoCat7, [("BTC", bareCoin "BTC")], false)
    ∧ addHandlerCoin demoCat7 [("BTC", bareCoin "BTC")] "Bitcoin" (.inr "DOGE")
      = .error .tokenNotFound := by
  constructor
  · exact (addHandlerCoin_amended [] [] "Bitcoin" (bareCoin "BTC") demoCat7
      [("BTC", bareCoin "BTC")] true).1 rfl
  · exact (addHandlerCoin_amended demoCat7 [("BTC", bareCoin "BTC")] "Bitcoin"
      (bareCoin "BTC") demoCat7 [("BTC", bareCoin "BTC")] true).2.2 "DOGE" rfl

/-! ### Index-membership lemmas for the reload model -/

theorem hasInst_ensureSym (hs : Index) (s' sym : String) (t : HType) (h : HInstance) :
    hasInst hs sym t h → hasInst (ensureSym hs s') sym t h := by
  rintro ⟨e, he, hm⟩
  unfold ensureSym
  by_cases hx : (alookup hs s').isSome
  · rw [if_pos hx]
    exact ⟨e, he, hm⟩
  · rw [if_neg hx]
    refine ⟨e, ?_, hm⟩
    rw [alookup_append, he]
    rfl

theorem hasInst_appendInst (hs : Index) (s' : String) (t' : HType) (h' : HInstance)
    (sym : String) (t : HType) (h : HInstance) :
    hasInst hs sym t h → hasInst (appendInst hs s' t' h') sym t h := by
  rintro ⟨e, he, hm⟩
  unfold appendInst
  by_cases hq : s' = sym
  · subst hq
    refine ⟨addInst e t' h', ?_, ?_⟩
    · rw [alookup_map_ite hs s' s' (fun e => addInst e t' h'), if_pos rfl, he]
      rfl
    · cases t <;> cases t' <;> dsimp only [addInst] <;>
        first
          | exact List.mem_append_left _ hm
          | exact hm
  · refine ⟨e, ?_, hm⟩
    rw [alookup_map_ite hs s' sym (fun e => addInst e t' h'), if_neg hq]
    exact he

theorem hasInst_addHandlerCoins (ctor : Coin → Except Unit HInstance) (t' : HType) :
    ∀ (coins : List Coin) (hs : Index) (sym : String) (t : HType) (h : HInstance),
      hasInst hs sym t h → hasInst (addHandlerCoins ctor t' coins hs).1 sym t h := by
  intro coins
  induction coins with
  | nil =>
    intro hs sym t h hh
    exact hh
  | cons c rest ih =>
    intro hs sym t h hh
    unfold addHandlerCoins
    dsimp only
    cases hc : ctor c with
    | error e => exact hasInst_ensureSym hs c.symbol sym t h hh
    | ok inst =>
      exact ih _ sym t h
        (hasInst_appendInst _ c.symbol t' inst sym t h
          (hasInst_ensureSym hs c.symbol sym t h hh))

theorem hasInst_processEntry (hs : Index) (e : CatalogEntry)
    (sym : String) (t : HType) (h : HInstance) :
    hasInst hs sym t h → hasInst (processEntry hs e) sym t h := by
  intro hh
  unfold processEntry
  by_cases hen : e.enabled = false
  · rw [if_pos hen]
    exact hh
  · rw [if_neg hen]
    cases e.resolution with
    | error _ => exact hh
    | ok ex =>
      dsimp only
      cases ex.loader with
      | none =>
        dsimp only
        cases ex.manager with
        | none => exact hh
        | some mc => exact hasInst_addHandlerCoins mc .mgr e.coins hs sym t h hh
      | some lc =>
        dsimp only
        have hld := hasInst_addHandlerCoins lc .ldr e.coins hs sym t h hh
        cases hf : (addHandlerCoins lc .ldr e.coins hs).2 with
        | true =>
          rw [if_pos rfl]
          exact hld
        | false =>
          rw [if_neg Bool.false_ne_true]
          cases ex.manager with
          | none => exact hld
          | some mc => exact hasInst_addHandlerCoins mc .mgr e.coins _ sym t h hld

theorem alookup_ensureSym_self (hs : Index) (sym : String) :
    ∃ e, alookup (ensureSym hs sym) sym = some e := by
  unfold ensureSym
  cases hx : alookup hs sym with
  | some e =>
    refine ⟨e, ?_⟩
    simp only [Option.isSome_some, if_true]
    exact hx
  | none =>
    refine ⟨⟨[], []⟩, ?_⟩
    simp only [Option.isSome_none, Bool.false_eq_true, if_false]
    rw [alookup_append, hx]
    simp [alookup]

theorem hasInst_appendInst_self (hs : Index) (sym : String) (t : HType) (h : HInstance)
    (e : IndexEntry) (he : alookup hs sym = some e) :
    hasInst (appendInst hs sym t h) sym t h := by
  refine ⟨addInst e t h, ?_, ?_⟩
  · unfold appendInst
    rw [alookup_map_ite hs sym sym (fun e => addInst e t h), if_pos rfl, he]
    rfl
  · cases t <;> dsimp only [addInst] <;>
      exact List.mem_append_right _ (List.mem_singleton_self _)

theorem addHandlerCoins_ok (ctor : Coin → Except Unit HInstance) (t : HType) :
    ∀ (coins : List Coin) (hs : Index),
      (∀ c ∈ coins, ∃ i, ctor c = .ok i) →
      (addHandlerCoins ctor t coins hs).2 = false
      ∧ ∀ c ∈ coins, ∀ i, ctor c = .ok i →
          hasInst (addHandlerCoins ctor t coins hs).1 c.symbol t i := by
  intro coins
  induction coins with
  | nil =>
    intro hs hok
    refine ⟨rfl, ?_⟩
    intro c hc
    exact absurd hc (List.not_mem_nil c)
  | cons c rest ih =>
    intro hs hok
    obtain ⟨i0, hi0⟩ := hok c (List.mem_cons_self c rest)
    unfold addHandlerCoins
    dsimp only
    rw [hi0]
    have hrest := ih (appendInst (ensureSym hs c.symbol) c.symbol t i0)
      (fun c' hc' => hok c' (List.mem_cons_of_mem c hc'))
    refine ⟨hrest.1, ?_⟩
    intro c' hc' i hi
    rcases List.mem_cons.mp hc' with hceq | hcr
    · subst hceq
      have hii : i0 = i := by
        rw [hi0] at hi
        exact Except.ok.inj hi
      subst hii
      obtain ⟨e, he⟩ := alookup_ensureSym_self hs c'.symbol
      exact hasInst_addHandlerCoins ctor t rest _ c'.symbol t i0
        (hasInst_appendInst_self _ c'.symbol t i0 e he)
    · exact hrest.2 c' hcr i hi

theorem processEntry_adds (hs : Index) (e : CatalogEntry) (ex : HandlerExports)
    (hen : e.enabled = true) (hres : e.resolution = .ok ex)
    (hl : ∀ ctor, ex.loader = some ctor → ∀ c ∈ e.coins, ∃ i, ctor c = .ok i)
    (hm : ∀ ctor, ex.manager = some ctor → ∀ c ∈ e.coins, ∃ i, ctor c = .ok i) :
    ∀ c ∈ e.coins,
      (∀ ctor i, ex.loader = some ctor → ctor c = .ok i →
        hasInst (processEntry hs e) c.symbol .ldr i)
      ∧ (∀ ctor i, ex.manager = some ctor → ctor c = .ok i →
        hasInst (processEntry hs e) c.symbol .mgr i) := by
  intro c hc
  unfold processEntry
  rw [if_neg (by simp [hen]), hres]
  dsimp only
  cases hlo : ex.loader with
  | none =>
    dsimp only
    rw [if_neg Bool.false_ne_true]
    constructor
    · intro ctor i hct hok
      exact absurd hct (by simp)
    · intro ctor i hct hok
      cases hmg : ex.manager with
      | none =>
        rw [hmg] at hct
        exact absurd hct (by simp)
      | some mc =>
        rw [hmg] at hct
        obtain rfl : mc = ctor := Option.some.inj hct
        exact (addHandlerCoins_ok mc .mgr e.coins hs (hm mc hmg)).2 c hc i hok
  | some lc =>
    have hstep := addHandlerCoins_ok lc .ldr e.coins hs (hl lc hlo)
    dsimp only
    rw [hstep.1, if_neg Bool.false_ne_true]
    constructor
    · intro ctor i hct hok
      obtain rfl : lc = ctor := Option.some.inj hct
      cases hmg : ex.manager with
      | none => exact hstep.2 c hc i hok
      | some mc =>
        exact hasInst_addHandlerCoins mc .mgr e.coins _ c.symbol .ldr i
          (hstep.2 c hc i hok)
    · intro ctor i hct hok
      cases hmg : ex.manager with
      | none =>
        rw [hmg] at hct
        exact absurd hct (by simp)
      | some mc =>
        rw [hmg] at hct
        obtain rfl : mc = ctor := Option.some.inj hct
        exact (addHandlerCoins_ok mc .mgr e.coins _ (hm mc hmg)).2 c hc i hok

theorem hasInst_foldl (l : List CatalogEntry) :
    ∀ (hs : Index) (sym : String) (t : HType) (h : HInstance),
      hasInst hs sym t h → hasInst (l.foldl processEntry hs) sym t h := by
  induction l with
  | nil =>
    intro hs sym t h hh
    exact hh
  | cons e rest ih =>
    intro hs sym t h hh
    exact ih _ sym t h (hasInst_processEntry hs e sym t h hh)

/-- C8 (amended).  Partial-failure isolation holds, but "skipped
entirely" does not: during `reload_handlers`, an enabled handler whose
module resolution raises contributes nothing, and a handler whose
Loader/Manager construction raises is abandoned from the point of failure
with its earlier registrations left in the index; every other enabled
handler whose module resolves and whose constructors succeed still gets,
for each of its coins, its loader and manager instances filed in the
final index — wherever it sits relative to failing handlers — and reload
itself always completes and returns the rebuilt index. -/
theorem reload_failure_isolation :
    ∀ (pre post : List CatalogEntry) (e : CatalogEntry) (ex : HandlerExports),
      e.enabled = true → e.resolution = .ok ex →
      (∀ ctor, ex.loader = some ctor → ∀ c ∈ e.coins, ∃ i, ctor c = .ok i) →
      (∀ ctor, ex.manager = some ctor → ∀ c ∈ e.coins, ∃ i, ctor c = .ok i) →
      ∀ c ∈ e.coins,
        (∀ ctor i, ex.loader = some ctor → ctor c = .ok i →
          hasInst (reloadHandlers (pre ++ e :: post)) c.symbol .ldr i)
        ∧ (∀ ctor i, ex.manager = some ctor → ctor c = .ok i →
          hasInst (reloadHandlers (pre ++ e :: post)) c.symbol .mgr i) := by
  intro pre post e ex hen hres hl hm c hc
  have hfold : reloadHandlers (pre ++ e :: post)
      = post.foldl processEntry (processEntry (pre.foldl processEntry []) e) := by
    unfold reloadHandlers
    rw [List.foldl_append, List.foldl_cons]
  have hadds := processEntry_adds (pre.foldl processEntry []) e ex hen hres hl hm c hc
  rw [hfold]
  exact ⟨fun ctor i h1 h2 => hasInst_foldl post _ c.symbol .ldr i (hadds.1 ctor i h1 h2),
         fun ctor i h1 h2 => hasInst_foldl post _ c.symbol .mgr i (hadds.2 ctor i h1 h2)⟩

/-- C8 (witness): with the construction-failing `Golos` entry first in
the catalog, the healthy `Alpha` handler behind it is still fully loaded:
its loader and manager instances for `AAA` are in the final index. -/
theorem reload_failure_isolation_witness :
    hasInst (reloadHandlers ([golosFailEntry] ++ alphaEntry :: [])) "AAA" .ldr ⟨"Alpha", "AAA"⟩
    ∧ hasInst (reloadHandlers ([golosFailEntry] ++ alphaEntry :: []))
        "AAA" .mgr ⟨"Alpha", "AAA"⟩ := by
  have h := reload_failure_isolation [golosFailEntry] [] alphaEntry
    ⟨some alphaLoaderCtor, some alphaLoaderCtor⟩ rfl rfl
    (fun ctor hct c hc => ⟨⟨"Alpha", c.symbol⟩, by rw [← Option.some.inj hct]; rfl⟩)
    (fun ctor hct c hc => ⟨⟨"Alpha", c.symbol⟩, by rw [← Option.some.inj hct]; rfl⟩)
    (bareCoin "AAA") (List.mem_cons_self _ _)
  exact ⟨h.1 alphaLoaderCtor ⟨"Alpha", "AAA"⟩ rfl rfl,
         h.2 alphaLoaderCtor ⟨"Alpha", "AAA"⟩ rfl rfl⟩

end CoinHandlers
